import Mathlib

/-!
Shallow embedding of the sdns DNS server core (src/lib/sdns.go).

Modelling choices:
* Go `map[string]*Domain` becomes an association list `List (String × Nat)`
  whose values are pointers, i.e. indices into the record heap
  `Sdns.domains`, which Load sets to the configuration's record list
  (Go stores `*Domain` pointers into `cfg.Domains`).  Insertion conses at
  the front and lookup takes the first hit, so the last write wins exactly
  as in a Go map.
* Go `uint64` arithmetic is `Nat` reduced `% UINT64MOD`.
* Byte indexing of domain names (`Name[0]`, `Name[1]`, `strings.IndexByte`)
  is modelled on the character list `String.data`; the byte `'.'` (0x2E)
  occurs in UTF-8 only as the character `'.'`, so the position of the first
  separator and the suffix sliced from it agree with Go's byte slicing.
* An out-of-bounds index, a Go runtime panic, is modelled by the explicit
  outcome `LoadErr.panicIndexOutOfRange` (for Load) and
  `SdnsErr.panicAccess` (for a dangling pointer, unreachable for states
  built by Load).
* The clock value `uint64(time.Now().UnixNano())` consumed by the lazy
  one-time seeding is passed in as an explicit parameter `now`; the
  `sync.Once` guard becomes the flag `Domain.seeded`.
* The wire library miekg/dns is external to the repository: its
  `Exchange` call is an oracle parameter `ex`, `NewRR` is modelled as the
  record triple it produces for the well-formed strings this server
  builds, and `SetReply` copies opcode and first question and starts with
  an empty answer section.  Logging is side-effect only and dropped.
-/

namespace SdnsLib

/-- Modulus of Go's uint64 arithmetic. -/
def UINT64MOD : Nat := 2 ^ 64

/-- Domain (src/lib/sdns.go): one configured record.  The unexported Go
fields `nextIdx uint64` and `once sync.Once` are modelled by `nextIdx`
and the flag `seeded` (whether `once.Do(init)` has already run). -/
structure Domain where
  Name : String
  Addresses : List String
  Nameservers : List String
  nextIdx : Nat := 0
  seeded : Bool := false
deriving DecidableEq

/-- init (src/lib/sdns.go): seeds the rotation cursor from the clock;
`now` stands for `uint64(time.Now().UnixNano())`. -/
def Domain.dinit (now : Nat) (d : Domain) : Domain :=
  { d with nextIdx := now % UINT64MOD, seeded := true }

/-- GetAddress (src/lib/sdns.go): `d.once.Do(d.init)`, then `d.nextIdx++`
(uint64 wrap-around) and selection of
`d.Addresses[d.nextIdx % uint64(len(d.Addresses))]`.  An empty pool (a Go
division-by-zero panic) is modelled by `List.getD` returning `""`. -/
def Domain.GetAddress (now : Nat) (d : Domain) : String × Domain :=
  let d0 := if d.seeded then d else d.dinit now
  let d1 := { d0 with nextIdx := (d0.nextIdx + 1) % UINT64MOD }
  (d1.Addresses.getD (d1.nextIdx % d1.Addresses.length) "", d1)

/-- Results of `n` consecutive GetAddress calls on the same record,
threading the mutated record. -/
def runGetAddress (now : Nat) (d : Domain) : Nat → List String
  | 0 => []
  | n + 1 =>
    (d.GetAddress now).1 :: runGetAddress now (d.GetAddress now).2 n

/-- Index trace of GetAddress: the pool position selected at each of `n`
consecutive calls when the cursor currently holds `c0` and the pool has
length `len` (the index computation of GetAddress, recorded per call). -/
def runSelIdx (c0 len : Nat) : Nat → List Nat
  | 0 => []
  | n + 1 =>
    ((c0 + 1) % UINT64MOD) % len :: runSelIdx ((c0 + 1) % UINT64MOD) len n

/-- SdnsConfig (src/lib/sdns.go) less the Debug flag, which only selects a
log writer. -/
structure SdnsConfig where
  Port : Nat
  Address : String
  Recursors : List String
  Domains : List Domain
deriving DecidableEq

/-- Sdns (src/lib/sdns.go).  `domains` is the record heap the two maps
point into (Go keeps `*Domain` pointers into the configuration's list);
`reverseDomains` is declared in the Go struct but never populated. -/
structure Sdns where
  exactDomains : List (String × Nat) := []
  wildcardDomains : List (String × Nat) := []
  reverseDomains : List (String × Nat) := []
  domains : List Domain := []
  recursors : List String := []
  address : String := ""
deriving DecidableEq

/-- Go map assignment `m[k] = v`: the new binding shadows any older one. -/
def mapInsert (m : List (String × Nat)) (k : String) (v : Nat) :
    List (String × Nat) :=
  (k, v) :: m

/-- Go map read `m[k]`: value of the most recent binding, if any. -/
def mapLookup (m : List (String × Nat)) (k : String) : Option Nat :=
  match m with
  | [] => none
  | (k1, v) :: rest => if k = k1 then some v else mapLookup rest k

/-- Outcomes of Load: the one Go error it constructs, or a runtime panic
from indexing `Name[0]` / `Name[1]` out of bounds. -/
inductive LoadErr where
  | malformedDomainName
  | panicIndexOutOfRange
deriving DecidableEq

/-- Body of Load's loop for one record `d` sitting at position `i` of the
configuration list (src/lib/sdns.go lines 84-94): route a `*`-prefixed
name (after checking the following byte is `.`) into the wildcard index
under `Name[1:]`, any other name into the exact index under `Name`. -/
def loadDomain (s : Sdns) (i : Nat) (d : Domain) : Sdns × Option LoadErr :=
  match d.Name.data with
  | [] => (s, some LoadErr.panicIndexOutOfRange)
  | c0 :: rest =>
    if c0 = '*' then
      match rest with
      | [] => (s, some LoadErr.panicIndexOutOfRange)
      | c1 :: _ =>
        if c1 = '.' then
          ({ s with wildcardDomains :=
              mapInsert s.wildcardDomains (String.mk rest) i }, none)
        else
          (s, some LoadErr.malformedDomainName)
    else
      ({ s with exactDomains := mapInsert s.exactDomains d.Name i }, none)

/-- Load's `for _, domain := range cfg.Domains` loop: stops and returns at
the first malformed record, leaving the maps as built so far. -/
def loadLoop (s : Sdns) (ds : List Domain) (i : Nat) : Sdns × Option LoadErr :=
  match ds with
  | [] => (s, none)
  | d :: rest =>
    match loadDomain s i d with
    | (s1, none) => loadLoop s1 rest (i + 1)
    | (s1, some e) => (s1, some e)

/-- Load (src/lib/sdns.go): replaces both indexes with fresh empty maps,
returns immediately on an empty configuration, otherwise runs the loop.
`domains` records the heap the stored pointers refer to. -/
def Load (s : Sdns) (cfg : SdnsConfig) : Sdns × Option LoadErr :=
  let s0 := { s with exactDomains := [], wildcardDomains := [],
                     domains := cfg.Domains }
  if cfg.Domains.isEmpty then (s0, none)
  else loadLoop s0 cfg.Domains 0

/-- Construction failures of NewSdns. -/
inductive NewErr where
  | noPort
  | load (e : LoadErr)
deriving DecidableEq

/-- NewSdns (src/lib/sdns.go): reject a zero port, Load, then record the
recursors and the listen address. -/
def NewSdns (cfg : SdnsConfig) : Sdns × Option NewErr :=
  if cfg.Port = 0 then ({}, some NewErr.noPort)
  else
    match Load {} cfg with
    | (s, some e) => (s, some (NewErr.load e))
    | (s, none) =>
      ({ s with recursors := cfg.Recursors,
                address := cfg.Address ++ ":" ++ toString cfg.Port }, none)

/-- FindDomainFromName (src/lib/sdns.go): empty names fail; the exact
index is probed first; otherwise the suffix from (and including) the
first `'.'` is probed in the wildcard index.  The returned pair is Go's
`(domain *Domain, found bool)`, the pointer as a heap index. -/
def FindDomainFromName (s : Sdns) (name : String) : Option Nat × Bool :=
  if name = "" then (none, false)
  else
    match mapLookup s.exactDomains name with
    | some p => (some p, true)
    | none =>
      match name.data.findIdx? (fun c => c == '.') with
      | none => (none, false)
      | some i =>
        match mapLookup s.wildcardDomains (String.mk (name.data.drop i)) with
        | some p => (some p, true)
        | none => (none, false)

/-- Errors of the answering path (src/lib/sdns.go lines 134-138), plus the
explicit marker for dereferencing a pointer that is not in the heap
(impossible for states built by Load). -/
inductive SdnsErr where
  | domainNotFound
  | noQuestions
  | unsupportedQueryType
  | panicAccess
deriving DecidableEq

/-- dns.TypeA. -/
def typeA : Nat := 1

/-- dns.TypeNS. -/
def typeNS : Nat := 2

/-- dns.OpcodeQuery. -/
def OpcodeQuery : Nat := 0

/-- One entry of a query's question section. -/
structure Question where
  Name : String
  Qtype : Nat
deriving DecidableEq

/-- One resource record of an answer section, as this server constructs
them: `"<name> <type> <value>"`. -/
structure RR where
  Name : String
  Rtype : String
  Value : String
deriving DecidableEq

/-- Modelled from the external miekg/dns library: `dns.NewRR` applied to
the strings this server formats (`"name A addr"`, `"name NS host"`); the
call succeeds on these well-formed inputs and yields the corresponding
record. -/
def NewRR (name rtype value : String) : RR :=
  { Name := name, Rtype := rtype, Value := value }

/-- The slice of a dns.Msg this core reads and writes. -/
structure Msg where
  Opcode : Nat := 0
  Question : List Question := []
  Answer : List RR := []
  RecursionDesired : Bool := false
deriving DecidableEq

/-- Modelled from the external miekg/dns library: `m.SetReply(r)` mirrors
the opcode, copies the first question when one is present, and starts
with an empty answer section. -/
def SetReply (r : Msg) : Msg :=
  { Opcode := r.Opcode,
    Question := match r.Question with
                | [] => []
                | q :: _ => [q],
    Answer := [],
    RecursionDesired := false }

/-- strings.TrimRight(name, "."): remove every trailing separator. -/
def trimRightDots (s : String) : String :=
  String.mk ((s.data.reverse.dropWhile (fun c => c == '.')).reverse)

/-- recurse (src/lib/sdns.go): forward a fresh recursion-desired message
carrying the original question section to `server`; `ex` is the oracle
standing for `client.Exchange` and yields either the upstream's reply or
a transport error. -/
def recurse (ex : String → Msg → Except String Msg) (m : Msg)
    (server : String) : Except String Msg :=
  ex server { Question := m.Question, RecursionDesired := true }

/-- answerA (src/lib/sdns.go): resolve `m.Question[0].Name` with trailing
separators stripped; on a miss signal DomainNotFound, on a hit rotate the
record's address pool (writing the bumped cursor back through the stored
pointer) and append one A record. -/
def answerA (now : Nat) (s : Sdns) (m : Msg) : Sdns × Msg × Option SdnsErr :=
  let name := (m.Question.headD { Name := "", Qtype := 0 }).Name
  match FindDomainFromName s (trimRightDots name) with
  | (some p, true) =>
    match s.domains.get? p with
    | some d =>
      let ad := d.GetAddress now
      ({ s with domains := s.domains.set p ad.2 },
       { m with Answer := m.Answer ++ [NewRR name "A" ad.1] }, none)
    | none => (s, m, some SdnsErr.panicAccess)
  | (none, true) => (s, m, some SdnsErr.panicAccess)
  | (_, false) => (s, m, some SdnsErr.domainNotFound)

/-- answerNS (src/lib/sdns.go): resolve the same way; on a hit append one
NS record per configured nameserver, preserving order. -/
def answerNS (s : Sdns) (m : Msg) : Sdns × Msg × Option SdnsErr :=
  let name := (m.Question.headD { Name := "", Qtype := 0 }).Name
  match FindDomainFromName s (trimRightDots name) with
  | (some p, true) =>
    match s.domains.get? p with
    | some d =>
      (s, { m with Answer :=
              m.Answer ++ d.Nameservers.map (fun ns => NewRR name "NS" ns) },
       none)
    | none => (s, m, some SdnsErr.panicAccess)
  | (none, true) => (s, m, some SdnsErr.panicAccess)
  | (_, false) => (s, m, some SdnsErr.domainNotFound)

/-- answerQuery (src/lib/sdns.go): fail fast on an empty question section,
then dispatch on the first question's type. -/
def answerQuery (now : Nat) (s : Sdns) (m : Msg) :
    Sdns × Msg × Option SdnsErr :=
  match m.Question with
  | [] => (s, m, some SdnsErr.noQuestions)
  | q :: _ =>
    if q.Qtype = typeA then answerA now s m
    else if q.Qtype = typeNS then answerNS s m
    else (s, m, some SdnsErr.unsupportedQueryType)

/-- The recursors loop of handle (src/lib/sdns.go lines 247-259): try each
upstream in order; the first success overwrites the answer section and
breaks, a failure is skipped; if every upstream fails the message is left
as it was. -/
def recurseLoop (ex : String → Msg → Except String Msg) (m : Msg) :
    List String → Msg
  | [] => m
  | server :: rest =>
    match recurse ex m server with
    | Except.ok inMsg => { m with Answer := inMsg.Answer }
    | Except.error _ => recurseLoop ex m rest

/-- handle (src/lib/sdns.go): build the reply skeleton, answer locally for
the query opcode, recurse only on DomainNotFound / UnsupportedQueryType,
and always produce a reply message. -/
def handle (now : Nat) (s : Sdns) (ex : String → Msg → Except String Msg)
    (r : Msg) : Sdns × Msg :=
  let m := SetReply r
  if r.Opcode = OpcodeQuery then
    match answerQuery now s m with
    | (s1, m1, some e) =>
      if e = SdnsErr.unsupportedQueryType ∨ e = SdnsErr.domainNotFound then
        (s1, recurseLoop ex m1 s1.recursors)
      else (s1, m1)
    | (s1, m1, none) => (s1, m1)
  else (s, m)

/-- DomainMatches (src/lib/sdns.go): plain string equality. -/
def DomainMatches (a b : String) : Bool :=
  a == b

/-! Concrete records and states used to instantiate the theorems. -/

/-- Wildcard record of the scenario in section 8 of the specification. -/
def dWild : Domain :=
  { Name := "*.something.com", Addresses := ["192.168.0.103"],
    Nameservers := [] }

/-- Exact record of the scenario in section 8 of the specification. -/
def dExact : Domain :=
  { Name := "something.com", Addresses := ["192.168.0.103"],
    Nameservers := [] }

/-- Configuration loading a wildcard and an exact record for the same
suffix. -/
def cfgScenario : SdnsConfig :=
  { Port := 53, Address := "", Recursors := [], Domains := [dWild, dExact] }

/-- State built from `cfgScenario`. -/
def sScenario : Sdns := (Load {} cfgScenario).1

/-- Record whose rotation cursor sits two steps below the uint64
wrap-around boundary. -/
def dNearWrap : Domain :=
  { Name := "d", Addresses := ["a", "b", "c"], Nameservers := [],
    nextIdx := UINT64MOD - 2, seeded := true }

/-- Record with two addresses and a small seeded cursor. -/
def dTwo : Domain :=
  { Name := "w", Addresses := ["x", "y"], Nameservers := [],
    nextIdx := 5, seeded := true }

/-- Configuration holding a single exact record, the table before a
reload. -/
def cfgOld : SdnsConfig :=
  { Port := 53, Address := "", Recursors := [],
    Domains := [{ Name := "old.com", Addresses := ["10.0.0.1"],
                  Nameservers := [] }] }

/-- State built from `cfgOld`. -/
def sOld : Sdns := (Load {} cfgOld).1

/-- Reload configuration whose second record has a malformed wildcard
name, so Load fails after indexing the first record. -/
def cfgNew : SdnsConfig :=
  { Port := 53, Address := "", Recursors := [],
    Domains := [{ Name := "a.com", Addresses := ["10.0.0.2"],
                  Nameservers := [] },
                { Name := "*x", Addresses := ["10.0.0.3"],
                  Nameservers := [] }] }

/-- Configuration whose exact record is literally named `.a.com`, the
same string as the wildcard suffix of the record `*.a.com`. -/
def cfgDotted : SdnsConfig :=
  { Port := 53, Address := "", Recursors := [],
    Domains := [{ Name := ".a.com", Addresses := ["1.1.1.1"],
                  Nameservers := [] },
                { Name := "*.a.com", Addresses := ["2.2.2.2"],
                  Nameservers := [] }] }

/-- Configuration containing a record with an empty name. -/
def cfgEmptyName : SdnsConfig :=
  { Port := 53, Address := "", Recursors := [],
    Domains := [{ Name := "", Addresses := ["1.2.3.4"],
                  Nameservers := [] }] }

/-- Configuration containing a record named exactly `*`. -/
def cfgStarOnly : SdnsConfig :=
  { Port := 53, Address := "", Recursors := [],
    Domains := [{ Name := "*", Addresses := ["1.2.3.4"],
                  Nameservers := [] }] }

/-- Name shape under which Load's byte indexing stays in bounds: the name
is non-empty, and when it starts with the wildcard marker it has a second
byte. -/
def nameIndexSafe (n : String) : Bool :=
  match n.data with
  | [] => false
  | c :: rest => if c = '*' then !rest.isEmpty else true

/-- Position of the first record Load stops at: the number of leading
records whose names route cleanly into one of the two indexes.  Load's
control flow depends only on each record's name, so this characterises
where the loop halts. -/
def errIdx (ds : List Domain) : Nat :=
  match ds with
  | [] => 0
  | d :: rest =>
    match d.Name.data with
    | [] => 0
    | c :: r2 =>
      if c = '*' then
        match r2 with
        | [] => 0
        | c1 :: _ => if c1 = '.' then 1 + errIdx rest else 0
      else 1 + errIdx rest

/-- Routing discipline of the two indexes: every exact binding points to
a heap record bearing exactly the bound name, which carries no wildcard
marker, and every wildcard binding points to a heap record whose name is
the wildcard marker followed by the bound suffix, which starts with the
separator. -/
def routedByMarker (s : Sdns) : Prop :=
  ∀ (k : String) (p : Nat),
    (mapLookup s.exactDomains k = some p →
      (s.domains.get? p).map Domain.Name = some k ∧
      k.data.head? ≠ some '*') ∧
    (mapLookup s.wildcardDomains k = some p →
      (s.domains.get? p).map (fun d => d.Name.data) =
        some ('*' :: k.data) ∧
      k.data.head? = some '.')

/-- Well-behaved configuration for instantiating totality statements. -/
def cfgGood : SdnsConfig :=
  { Port := 53, Address := "", Recursors := [],
    Domains := [{ Name := "a.com", Addresses := ["10.0.0.2"],
                  Nameservers := [] },
                { Name := "*.b.com", Addresses := ["10.0.0.3"],
                  Nameservers := [] }] }

/-- Scenario state extended with two configured upstream recursors. -/
def sRec : Sdns := { sScenario with recursors := ["bad", "good"] }

/-- A query for a name the scenario table cannot resolve. -/
def rMiss : Msg :=
  { Opcode := 0, Question := [{ Name := "nope.com.", Qtype := 1 }] }

/-- A query message carrying no questions. -/
def rEmpty : Msg := { Opcode := 0, Question := [] }

/-- Upstream oracle: the server named `bad` fails with a transport error,
every other server answers with one A record. -/
def exW : String → Msg → Except String Msg := fun srv _ =>
  if srv = "bad" then Except.error "boom"
  else Except.ok { Answer := [NewRR "nope.com." "A" "9.9.9.9"] }

/-! Theorems. -/

/-- C1: for every non-empty query name, if a record was loaded under that
literal name in the exact index, FindDomainFromName returns that
exact-match record and reports found — unconditionally on the wildcard
index, so any applicable wildcard records are irrelevant. -/
theorem findDomain_exact_priority (s : Sdns) (name : String) (p : Nat)
    (hne : name ≠ "") (hx : mapLookup s.exactDomains name = some p) :
    FindDomainFromName s name = (some p, true) := by
  unfold FindDomainFromName
  rw [if_neg hne, hx]

theorem findDomain_exact_priority_witness :
    FindDomainFromName sScenario "something.com" = (some 1, true) :=
  findDomain_exact_priority sScenario "something.com" 1 (by decide) (by decide)

/-- Helper: the wildcard branch of FindDomainFromName, shared by several
claims. -/
theorem aux_find_wildcard (s : Sdns) (name : String) (i : Nat)
    (hne : name ≠ "") (hx : mapLookup s.exactDomains name = none)
    (hi : name.data.findIdx? (fun c => c == '.') = some i) :
    FindDomainFromName s name =
      (mapLookup s.wildcardDomains (String.mk (name.data.drop i)),
       (mapLookup s.wildcardDomains (String.mk (name.data.drop i))).isSome) := by
  cases h : mapLookup s.wildcardDomains (String.mk (name.data.drop i)) <;>
    simp [FindDomainFromName, hne, hx, hi, h]

/-- C2: for a name with no exact match that contains a separator at first
position `i`, FindDomainFromName returns exactly the wildcard lookup of
the suffix from (and including) that first separator — so only this
single suffix is ever probed. -/
theorem findDomain_wildcard_firstSep (s : Sdns) (name : String) (i : Nat)
    (hne : name ≠ "") (hx : mapLookup s.exactDomains name = none)
    (hi : name.data.findIdx? (fun c => c == '.') = some i) :
    FindDomainFromName s name =
      (mapLookup s.wildcardDomains (String.mk (name.data.drop i)),
       (mapLookup s.wildcardDomains (String.mk (name.data.drop i))).isSome) :=
  aux_find_wildcard s name i hne hx hi

theorem findDomain_wildcard_firstSep_witness :
    FindDomainFromName sScenario "test.something.com" =
      (mapLookup sScenario.wildcardDomains
        (String.mk ("test.something.com".data.drop 4)),
       (mapLookup sScenario.wildcardDomains
        (String.mk ("test.something.com".data.drop 4))).isSome) :=
  findDomain_wildcard_firstSep sScenario "test.something.com" 4
    (by decide) (by decide) (by decide)

/-- C8: the empty name is never found, and the bare separator `.` is not
found whenever neither an exact record named `.` nor a wildcard record
with suffix `.` was loaded. -/
theorem findDomain_empty_and_dot (s : Sdns)
    (hx : mapLookup s.exactDomains "." = none)
    (hw : mapLookup s.wildcardDomains "." = none) :
    FindDomainFromName s "" = (none, false) ∧
    FindDomainFromName s "." = (none, false) := by
  constructor
  · unfold FindDomainFromName
    simp
  · have h := aux_find_wildcard s "." 0 (by decide) hx (by decide)
    have h3 : String.mk (".".data.drop 0) = "." := by decide
    rw [h3] at h
    rw [h, hw]
    rfl

theorem findDomain_empty_and_dot_witness :
    FindDomainFromName {} "" = (none, false) ∧
    FindDomainFromName {} "." = (none, false) :=
  findDomain_empty_and_dot {} (by decide) (by decide)

/-- C3, counterexample: starting from the reachable cursor value
`2^64 - 2`, three consecutive GetAddress calls on a three-address record
return the first address twice and never the third, so a window of N
consecutive calls crossing the uint64 wrap-around boundary does not visit
each of the N addresses exactly once. -/
theorem getAddress_wrap_not_cyclic :
    dNearWrap.Addresses.length = 3 ∧
    runGetAddress 0 dNearWrap 3 = ["a", "a", "b"] ∧
    "c" ∈ dNearWrap.Addresses ∧
    (runGetAddress 0 dNearWrap 3).count "c" = 0 := by
  decide

/-- Helper: while the counter stays below the uint64 boundary, the index
trace is the mod-len rotation of consecutive counter values. -/
theorem aux_runSelIdx_map (len : Nat) :
    ∀ (n c0 : Nat), c0 + n < UINT64MOD →
      runSelIdx c0 len n = (List.range n).map (fun k => (c0 + 1 + k) % len)
  | 0, c0, _ => by simp [runSelIdx]
  | n + 1, c0, h => by
    have h1 : c0 + 1 < UINT64MOD := by omega
    have h2 : (c0 + 1) % UINT64MOD = c0 + 1 := Nat.mod_eq_of_lt h1
    have ih := aux_runSelIdx_map len n (c0 + 1) (by omega)
    rw [runSelIdx, h2, ih, List.range_succ_eq_map, List.map_cons,
      List.map_map]
    refine congrArg₂ _ (by simp) ?_
    refine List.map_congr_left ?_
    intro k _
    have : c0 + 1 + 1 + k = c0 + 1 + (k + 1) := by omega
    simp [Function.comp, this, Nat.succ_eq_add_one]

/-- Helper: over a window of len consecutive counter values, each pool
position is selected exactly once. -/
theorem aux_count_rotation (len a j : Nat) (hlen : 0 < len)
    (hj : j < len) :
    ((List.range len).map (fun k => (a + k) % len)).count j = 1 := by
  apply List.count_eq_one_of_mem
  · refine List.Nodup.map_on ?_ (List.nodup_range len)
    intro x hx y hy hf
    have hx' : x < len := List.mem_range.mp hx
    have hy' : y < len := List.mem_range.mp hy
    have hc : x % len = y % len := Nat.ModEq.add_left_cancel' a hf
    rwa [Nat.mod_eq_of_lt hx', Nat.mod_eq_of_lt hy'] at hc
  · rw [List.mem_map]
    have hr : a % len < len := Nat.mod_lt a hlen
    refine ⟨if a % len ≤ j then j - a % len else j + len - a % len,
      List.mem_range.mpr (by split <;> omega), ?_⟩
    rw [Nat.add_mod a, Nat.mod_eq_of_lt (show (if a % len ≤ j then
      j - a % len else j + len - a % len) < len by split <;> omega)]
    rcases le_or_lt (a % len) j with hle | hlt
    · rw [if_pos hle, show a % len + (j - a % len) = j from by omega,
        Nat.mod_eq_of_lt hj]
    · rw [if_neg (by omega),
        show a % len + (j + len - a % len) = j + len from by omega,
        Nat.add_mod_right, Nat.mod_eq_of_lt hj]

/-- Helper: consecutive GetAddress calls on a seeded record read the pool
at exactly the positions of the index trace. -/
theorem aux_runGetAddress_map (now : Nat) :
    ∀ (n : Nat) (d : Domain), d.seeded = true →
      runGetAddress now d n =
        (runSelIdx d.nextIdx d.Addresses.length n).map
          (fun i => d.Addresses.getD i "")
  | 0, d, _ => by simp [runGetAddress, runSelIdx]
  | n + 1, d, hseed => by
    have ih := aux_runGetAddress_map now n
      { d with nextIdx := (d.nextIdx + 1) % UINT64MOD } hseed
    simp only [runGetAddress, runSelIdx, Domain.GetAddress, hseed,
      if_pos, List.map_cons] at ih ⊢
    exact congrArg _ ih

/-- C3, amended: for a record with N ≥ 1 addresses whose current cursor
value keeps the next N increments below the uint64 wrap-around boundary,
N consecutive GetAddress calls read the pool along the index trace
`runSelIdx`, and that trace selects every pool position exactly once;
each call increments the cursor and selects `addresses[cursor mod N]`.
Across a wrap-around boundary the exactly-once property can fail when N
does not divide 2^64. -/
theorem getAddress_roundRobin_noWrap (d : Domain) (j now : Nat)
    (hseed : d.seeded = true) (hlen : 0 < d.Addresses.length)
    (hwrap : d.nextIdx + d.Addresses.length < UINT64MOD)
    (hj : j < d.Addresses.length) :
    runGetAddress now d d.Addresses.length =
      (runSelIdx d.nextIdx d.Addresses.length d.Addresses.length).map
        (fun i => d.Addresses.getD i "") ∧
    (runSelIdx d.nextIdx d.Addresses.length d.Addresses.length).count j
      = 1 := by
  refine ⟨aux_runGetAddress_map now d.Addresses.length d hseed, ?_⟩
  rw [aux_runSelIdx_map d.Addresses.length d.Addresses.length d.nextIdx
    hwrap]
  exact aux_count_rotation d.Addresses.length (d.nextIdx + 1) j hlen hj

theorem getAddress_roundRobin_noWrap_witness :
    (runGetAddress 0 dTwo 2 =
      (runSelIdx dTwo.nextIdx dTwo.Addresses.length 2).map
        (fun i => dTwo.Addresses.getD i "") ∧
     (runSelIdx dTwo.nextIdx dTwo.Addresses.length 2).count 1 = 1) :=
  getAddress_roundRobin_noWrap dTwo 1 0 rfl (by decide) (by decide)
    (by decide)

/-- C6: on the configuration whose only record is named `*`, and on the
one whose only record has the empty name, Load reaches an out-of-bounds
byte index — a runtime panic — instead of returning the malformed-domain
configuration error, so construction crashes rather than failing with an
error. -/
theorem load_malformed_star_crash :
    (Load {} cfgStarOnly).2 = some LoadErr.panicIndexOutOfRange ∧
    (Load {} cfgStarOnly).2 ≠ some LoadErr.malformedDomainName ∧
    (NewSdns cfgStarOnly).2 = some (NewErr.load LoadErr.panicIndexOutOfRange) ∧
    (Load {} cfgEmptyName).2 = some LoadErr.panicIndexOutOfRange := by
  decide

/-- C7, counterexample: reloading a table that resolved `old.com` with a
configuration whose second record is malformed leaves the indexes holding
the prefix of the new configuration — `a.com` resolves, `old.com` no
longer does — so after a failed Load a lookup observes neither the
complete previous table nor a complete new one. -/
theorem load_partial_state_observable :
    (Load sOld cfgNew).2 = some LoadErr.malformedDomainName ∧
    FindDomainFromName sOld "old.com" = (some 0, true) ∧
    FindDomainFromName (Load sOld cfgNew).1 "old.com" = (none, false) ∧
    FindDomainFromName (Load sOld cfgNew).1 "a.com" = (some 0, true) := by
  decide

/-- Helper: Load always reduces to its loop over the configuration
records, starting from the cleared maps. -/
theorem aux_Load_eq (s : Sdns) (cfg : SdnsConfig) :
    Load s cfg =
      loadLoop { s with exactDomains := [], wildcardDomains := [],
                        domains := cfg.Domains } cfg.Domains 0 := by
  unfold Load
  cases h : cfg.Domains with
  | nil => simp [h, loadLoop]
  | cons a l => simp [h, loadLoop]

/-- Helper: the loop never reaches an out-of-bounds index when every
remaining record's name is index-safe. -/
theorem aux_loadLoop_no_panic :
    ∀ (ds : List Domain) (s : Sdns) (i : Nat),
      (∀ d ∈ ds, nameIndexSafe d.Name = true) →
      (loadLoop s ds i).2 ≠ some LoadErr.panicIndexOutOfRange := by
  intro ds
  induction ds with
  | nil => intro s i _; simp [loadLoop]
  | cons d rest ih =>
    intro s i h
    have hd : nameIndexSafe d.Name = true := h d (by simp)
    have hrest : ∀ d2 ∈ rest, nameIndexSafe d2.Name = true := by
      intro d2 hm
      exact h d2 (by simp [hm])
    rw [loadLoop]
    unfold nameIndexSafe at hd
    unfold loadDomain
    cases hname : d.Name.data with
    | nil => rw [hname] at hd; simp at hd
    | cons c r2 =>
      rw [hname] at hd
      by_cases hc : c = '*'
      · cases r2 with
        | nil => rw [hc] at hd; simp at hd
        | cons c1 r3 =>
          by_cases hc1 : c1 = '.'
          · simp only [hc, if_pos rfl, hc1]
            exact ih _ _ hrest
          · simp [hc, hc1]
      · simp only [if_neg hc]
        exact ih _ _ hrest

/-- C10: Load is total exactly on configurations whose record names keep
its byte indexing in bounds — a record with the empty name crashes at
`Name[0]`, a record named `*` crashes at `Name[1]` (so neither receives
the promised configuration error), while any configuration of index-safe
names never reaches the out-of-bounds outcome. -/
theorem load_totality_name_bounds :
    (Load {} cfgEmptyName).2 = some LoadErr.panicIndexOutOfRange ∧
    (Load {} cfgStarOnly).2 = some LoadErr.panicIndexOutOfRange ∧
    ∀ (s : Sdns) (cfg : SdnsConfig),
      (∀ d ∈ cfg.Domains, nameIndexSafe d.Name = true) →
      (Load s cfg).2 ≠ some LoadErr.panicIndexOutOfRange := by
  refine ⟨by decide, by decide, ?_⟩
  intro s cfg h
  rw [aux_Load_eq]
  exact aux_loadLoop_no_panic cfg.Domains _ 0 h

theorem load_totality_name_bounds_witness :
    (Load {} cfgGood).2 ≠ some LoadErr.panicIndexOutOfRange :=
  load_totality_name_bounds.2.2 {} cfgGood (by decide)

/-- Helper: one loop step on a record whose name is empty. -/
theorem aux_loadDomain_nil (s : Sdns) (i : Nat) (d : Domain)
    (h : d.Name.data = []) :
    loadDomain s i d = (s, some LoadErr.panicIndexOutOfRange) := by
  unfold loadDomain
  rw [h]

/-- Helper: one loop step on a record whose name is just the marker. -/
theorem aux_loadDomain_star (s : Sdns) (i : Nat) (d : Domain) (c : Char)
    (h : d.Name.data = [c]) (hc : c = '*') :
    loadDomain s i d = (s, some LoadErr.panicIndexOutOfRange) := by
  unfold loadDomain
  rw [h, hc]
  simp

/-- Helper: one loop step on a well-formed wildcard record. -/
theorem aux_loadDomain_wild (s : Sdns) (i : Nat) (d : Domain)
    (c c1 : Char) (r3 : List Char) (h : d.Name.data = c :: c1 :: r3)
    (hc : c = '*') (hc1 : c1 = '.') :
    loadDomain s i d =
      ({ s with wildcardDomains :=
          mapInsert s.wildcardDomains (String.mk (c1 :: r3)) i }, none) := by
  unfold loadDomain
  rw [h, hc, hc1]
  simp

/-- Helper: one loop step on a malformed wildcard record. -/
theorem aux_loadDomain_malformed (s : Sdns) (i : Nat) (d : Domain)
    (c c1 : Char) (r3 : List Char) (h : d.Name.data = c :: c1 :: r3)
    (hc : c = '*') (hc1 : c1 ≠ '.') :
    loadDomain s i d = (s, some LoadErr.malformedDomainName) := by
  unfold loadDomain
  rw [h, hc]
  simp [hc1]

/-- Helper: one loop step on an exact record. -/
theorem aux_loadDomain_exact (s : Sdns) (i : Nat) (d : Domain)
    (c : Char) (r2 : List Char) (h : d.Name.data = c :: r2)
    (hc : c ≠ '*') :
    loadDomain s i d =
      ({ s with exactDomains := mapInsert s.exactDomains d.Name i },
       none) := by
  unfold loadDomain
  rw [h]
  simp [hc]

/-- Helper: a loop step's index effect and verdict depend only on the
indexes of the starting state. -/
theorem aux_loadDomain_rel (s t : Sdns) (i : Nat) (d : Domain)
    (h1 : s.exactDomains = t.exactDomains)
    (h2 : s.wildcardDomains = t.wildcardDomains) :
    (loadDomain s i d).1.exactDomains = (loadDomain t i d).1.exactDomains ∧
    (loadDomain s i d).1.wildcardDomains =
      (loadDomain t i d).1.wildcardDomains ∧
    (loadDomain s i d).2 = (loadDomain t i d).2 := by
  cases hname : d.Name.data with
  | nil =>
    rw [aux_loadDomain_nil s i d hname, aux_loadDomain_nil t i d hname]
    exact ⟨h1, h2, rfl⟩
  | cons c r2 =>
    by_cases hc : c = '*'
    · cases r2 with
      | nil =>
        rw [aux_loadDomain_star s i d c hname hc,
          aux_loadDomain_star t i d c hname hc]
        exact ⟨h1, h2, rfl⟩
      | cons c1 r3 =>
        by_cases hc1 : c1 = '.'
        · rw [aux_loadDomain_wild s i d c c1 r3 hname hc hc1,
            aux_loadDomain_wild t i d c c1 r3 hname hc hc1]
          exact ⟨h1, by simp [mapInsert, h2], rfl⟩
        · rw [aux_loadDomain_malformed s i d c c1 r3 hname hc hc1,
            aux_loadDomain_malformed t i d c c1 r3 hname hc hc1]
          exact ⟨h1, h2, rfl⟩
    · rw [aux_loadDomain_exact s i d c r2 hname hc,
        aux_loadDomain_exact t i d c r2 hname hc]
      exact ⟨by simp [mapInsert, h1], h2, rfl⟩

/-- Helper: a loop step never changes the record heap. -/
theorem aux_loadDomain_domains (s : Sdns) (i : Nat) (d : Domain) :
    (loadDomain s i d).1.domains = s.domains := by
  cases hname : d.Name.data with
  | nil => rw [aux_loadDomain_nil s i d hname]
  | cons c r2 =>
    by_cases hc : c = '*'
    · cases r2 with
      | nil => rw [aux_loadDomain_star s i d c hname hc]
      | cons c1 r3 =>
        by_cases hc1 : c1 = '.'
        · rw [aux_loadDomain_wild s i d c c1 r3 hname hc hc1]
        · rw [aux_loadDomain_malformed s i d c c1 r3 hname hc hc1]
    · rw [aux_loadDomain_exact s i d c r2 hname hc]

/-- Helper: a failing loop step keeps the state and stops the error index
at the head. -/
theorem aux_loadDomain_err_shape (s : Sdns) (i : Nat) (d : Domain)
    (s1 : Sdns) (e1 : LoadErr) (h : loadDomain s i d = (s1, some e1)) :
    s1 = s ∧ ∀ rest, errIdx (d :: rest) = 0 := by
  cases hname : d.Name.data with
  | nil =>
    rw [aux_loadDomain_nil s i d hname] at h
    exact ⟨(Prod.mk.injEq .. |>.mp h).1.symm,
      fun rest => by simp [errIdx, hname]⟩
  | cons c r2 =>
    by_cases hc : c = '*'
    · cases r2 with
      | nil =>
        rw [aux_loadDomain_star s i d c hname hc] at h
        exact ⟨(Prod.mk.injEq .. |>.mp h).1.symm,
          fun rest => by simp [errIdx, hname, hc]⟩
      | cons c1 r3 =>
        by_cases hc1 : c1 = '.'
        · rw [aux_loadDomain_wild s i d c c1 r3 hname hc hc1] at h
          simp at h
        · rw [aux_loadDomain_malformed s i d c c1 r3 hname hc hc1] at h
          exact ⟨(Prod.mk.injEq .. |>.mp h).1.symm,
            fun rest => by simp [errIdx, hname, hc, hc1]⟩
    · rw [aux_loadDomain_exact s i d c r2 hname hc] at h
      simp at h

/-- Helper: a successful loop step advances the error index past the
head. -/
theorem aux_loadDomain_ok_shape (s : Sdns) (i : Nat) (d : Domain)
    (s1 : Sdns) (h : loadDomain s i d = (s1, none)) :
    ∀ rest, errIdx (d :: rest) = 1 + errIdx rest := by
  cases hname : d.Name.data with
  | nil =>
    rw [aux_loadDomain_nil s i d hname] at h
    simp at h
  | cons c r2 =>
    by_cases hc : c = '*'
    · cases r2 with
      | nil =>
        rw [aux_loadDomain_star s i d c hname hc] at h
        simp at h
      | cons c1 r3 =>
        by_cases hc1 : c1 = '.'
        · exact fun rest => by simp [errIdx, hname, hc, hc1]
        · rw [aux_loadDomain_malformed s i d c c1 r3 hname hc hc1] at h
          simp at h
    · exact fun rest => by simp [errIdx, hname, hc]

/-- Helper: the loop's effect on the two indexes, and its verdict, depend
only on the indexes it starts from, not on the rest of the state. -/
theorem aux_loadLoop_congr :
    ∀ (ds : List Domain) (i : Nat) (s t : Sdns),
      s.exactDomains = t.exactDomains →
      s.wildcardDomains = t.wildcardDomains →
      (loadLoop s ds i).1.exactDomains = (loadLoop t ds i).1.exactDomains ∧
      (loadLoop s ds i).1.wildcardDomains =
        (loadLoop t ds i).1.wildcardDomains ∧
      (loadLoop s ds i).2 = (loadLoop t ds i).2 := by
  intro ds
  induction ds with
  | nil =>
    intro i s t h1 h2
    exact ⟨h1, h2, rfl⟩
  | cons d rest ih =>
    intro i s t h1 h2
    rw [loadLoop, loadLoop]
    have hrel := aux_loadDomain_rel s t i d h1 h2
    rcases hstep : loadDomain s i d with ⟨s1, e1⟩
    rcases hstep2 : loadDomain t i d with ⟨t1, e2⟩
    rw [hstep, hstep2] at hrel
    have he : e1 = e2 := hrel.2.2
    subst he
    cases e1 with
    | none => exact ih _ _ _ hrel.1 hrel.2.1
    | some e0 => exact ⟨hrel.1, hrel.2.1, rfl⟩

/-- Helper: the loop never changes the record heap. -/
theorem aux_loadLoop_domains :
    ∀ (ds : List Domain) (s : Sdns) (i : Nat),
      (loadLoop s ds i).1.domains = s.domains := by
  intro ds
  induction ds with
  | nil => intro s i; rfl
  | cons d rest ih =>
    intro s i
    rw [loadLoop]
    have hdom := aux_loadDomain_domains s i d
    rcases hstep : loadDomain s i d with ⟨s1, e1⟩
    rw [hstep] at hdom
    cases e1 with
    | none => rw [ih s1 (i + 1)]; exact hdom
    | some e0 => exact hdom

/-- Helper: when the loop stops with an error it has processed exactly
the records before position `errIdx`, and its final state is the state
reached by loading just that prefix. -/
theorem aux_loadLoop_errAt :
    ∀ (ds : List Domain) (s : Sdns) (i : Nat) (e : LoadErr),
      (loadLoop s ds i).2 = some e →
      errIdx ds < ds.length ∧
      loadLoop s (ds.take (errIdx ds)) i = ((loadLoop s ds i).1, none) := by
  intro ds
  induction ds with
  | nil => intro s i e h; simp [loadLoop] at h
  | cons d rest ih =>
    intro s i e h
    rw [loadLoop] at h
    rcases hstep : loadDomain s i d with ⟨s1, e1⟩
    rw [hstep] at h
    cases e1 with
    | some e0 =>
      have hshape := aux_loadDomain_err_shape s i d s1 e0 hstep
      rw [hshape.2 rest]
      refine ⟨by simp, ?_⟩
      rw [List.take_zero, loadLoop, loadLoop, hstep, hshape.1]
    | none =>
      have hshape := aux_loadDomain_ok_shape s i d s1 hstep
      have hih := ih s1 (i + 1) e h
      rw [hshape rest]
      refine ⟨by simp; omega, ?_⟩
      rw [show 1 + errIdx rest = errIdx rest + 1 from Nat.add_comm 1 _,
        List.take_succ_cons, loadLoop, loadLoop, hstep]
      exact hih.2
/-- C7, amended: Load discards the previous table unconditionally — the
resulting indexes, heap and verdict depend only on the new configuration
— and when it fails, the indexes hold exactly the entries built from the
prefix of the new configuration before the first erroring record, the
same indexes a successful load of just that prefix would build; the
previous table is not preserved, so partial state is observable. -/
theorem load_prior_table_discarded :
    (∀ (s t : Sdns) (cfg : SdnsConfig),
       (Load s cfg).1.exactDomains = (Load t cfg).1.exactDomains ∧
       (Load s cfg).1.wildcardDomains = (Load t cfg).1.wildcardDomains ∧
       (Load s cfg).1.domains = (Load t cfg).1.domains ∧
       (Load s cfg).2 = (Load t cfg).2) ∧
    (∀ (s : Sdns) (cfg : SdnsConfig) (e : LoadErr),
       (Load s cfg).2 = some e →
       errIdx cfg.Domains < cfg.Domains.length ∧
       (Load s { cfg with
          Domains := cfg.Domains.take (errIdx cfg.Domains) }).2 = none ∧
       (Load s cfg).1.exactDomains =
         (Load s { cfg with
            Domains := cfg.Domains.take (errIdx cfg.Domains) }).1.exactDomains ∧
       (Load s cfg).1.wildcardDomains =
         (Load s { cfg with
            Domains := cfg.Domains.take (errIdx cfg.Domains)
          }).1.wildcardDomains) := by
  constructor
  · intro s t cfg
    rw [aux_Load_eq, aux_Load_eq]
    have hc := aux_loadLoop_congr cfg.Domains 0
      { s with exactDomains := [], wildcardDomains := [],
               domains := cfg.Domains }
      { t with exactDomains := [], wildcardDomains := [],
               domains := cfg.Domains } rfl rfl
    refine ⟨hc.1, hc.2.1, ?_, hc.2.2⟩
    rw [aux_loadLoop_domains, aux_loadLoop_domains]
  · intro s cfg e h
    rw [aux_Load_eq] at h
    have hp := aux_loadLoop_errAt cfg.Domains _ 0 e h
    refine ⟨hp.1, ?_, ?_, ?_⟩ <;>
      rw [aux_Load_eq] <;>
      [skip; rw [aux_Load_eq]; rw [aux_Load_eq]] <;>
      have hc := aux_loadLoop_congr (cfg.Domains.take (errIdx cfg.Domains)) 0
        { s with exactDomains := [], wildcardDomains := [],
                 domains := List.take (errIdx cfg.Domains) cfg.Domains }
        { s with exactDomains := [], wildcardDomains := [],
                 domains := cfg.Domains } rfl rfl
    · rw [hc.2.2, hp.2]
    · rw [hc.1, hp.2]
    · rw [hc.2.1, hp.2]

theorem load_prior_table_discarded_witness :
    errIdx cfgNew.Domains < cfgNew.Domains.length ∧
    (Load sOld { cfgNew with
       Domains := cfgNew.Domains.take (errIdx cfgNew.Domains) }).2 = none ∧
    (Load sOld cfgNew).1.exactDomains =
      (Load sOld { cfgNew with
         Domains := cfgNew.Domains.take (errIdx cfgNew.Domains)
       }).1.exactDomains ∧
    (Load sOld cfgNew).1.wildcardDomains =
      (Load sOld { cfgNew with
         Domains := cfgNew.Domains.take (errIdx cfgNew.Domains)
       }).1.wildcardDomains :=
  load_prior_table_discarded.2 sOld cfgNew LoadErr.malformedDomainName
    (by decide)

/-- C9, counterexample: loading an exact record literally named `.a.com`
together with the wildcard record `*.a.com` succeeds and leaves the
string `.a.com` a key of both the exact index and the wildcard index, so
the two key spaces are not disjoint. -/
theorem load_key_spaces_overlap :
    (Load {} cfgDotted).2 = none ∧
    mapLookup (Load {} cfgDotted).1.exactDomains ".a.com" = some 0 ∧
    mapLookup (Load {} cfgDotted).1.wildcardDomains ".a.com" = some 1 := by
  decide

/-- Helper: the loop preserves the routing discipline when the remaining
records are the heap slice starting at the running position. -/
theorem aux_loadLoop_routed :
    ∀ (ds : List Domain) (s : Sdns) (i : Nat) (s2 : Sdns),
      (∀ j, ds.get? j = s.domains.get? (i + j)) →
      routedByMarker s →
      loadLoop s ds i = (s2, none) →
      routedByMarker s2 := by
  intro ds
  induction ds with
  | nil =>
    intro s i s2 _ hgood h
    injection h with h1 h2
    subst h1
    exact hgood
  | cons d rest ih =>
    intro s i s2 hslice hgood h
    rw [loadLoop] at h
    have hd : some d = s.domains.get? (i + 0) := hslice 0
    rw [Nat.add_zero] at hd
    cases hname : d.Name.data with
    | nil =>
      rw [aux_loadDomain_nil s i d hname] at h
      simp at h
    | cons c r2 =>
      by_cases hc : c = '*'
      · cases r2 with
        | nil =>
          rw [aux_loadDomain_star s i d c hname hc] at h
          simp at h
        | cons c1 r3 =>
          by_cases hc1 : c1 = '.'
          · rw [aux_loadDomain_wild s i d c c1 r3 hname hc hc1] at h
            refine ih _ (i + 1) s2 ?_ ?_ h
            · intro j
              have hs := hslice (j + 1)
              rw [show i + (j + 1) = i + 1 + j from by omega] at hs
              exact hs
            · intro k p
              refine ⟨fun hk => (hgood k p).1 hk, fun hk => ?_⟩
              have hk2 : mapLookup
                  ((String.mk (c1 :: r3), i) :: s.wildcardDomains) k
                  = some p := hk
              by_cases hkey : k = String.mk (c1 :: r3)
              · rw [mapLookup, if_pos hkey] at hk2
                have hp : p = i := (Option.some.injEq .. |>.mp hk2).symm
                subst hkey
                rw [hp]
                constructor
                · show Option.map (fun d0 => d0.Name.data)
                    (s.domains.get? i) =
                    some ('*' :: (String.mk (c1 :: r3)).data)
                  rw [← hd]
                  simp [hname, hc]
                · simp [hc1]
              · rw [mapLookup, if_neg hkey] at hk2
                exact (hgood k p).2 hk2
          · rw [aux_loadDomain_malformed s i d c c1 r3 hname hc hc1] at h
            simp at h
      · rw [aux_loadDomain_exact s i d c r2 hname hc] at h
        refine ih _ (i + 1) s2 ?_ ?_ h
        · intro j
          have hs := hslice (j + 1)
          rw [show i + (j + 1) = i + 1 + j from by omega] at hs
          exact hs
        · intro k p
          refine ⟨fun hk => ?_, fun hk => (hgood k p).2 hk⟩
          have hk2 : mapLookup ((d.Name, i) :: s.exactDomains) k
              = some p := hk
          by_cases hkey : k = d.Name
          · rw [mapLookup, if_pos hkey] at hk2
            have hp : p = i := (Option.some.injEq .. |>.mp hk2).symm
            subst hkey
            rw [hp]
            constructor
            · show Option.map Domain.Name (s.domains.get? i) = some d.Name
              rw [← hd]
              rfl
            · show d.Name.data.head? ≠ some '*'
              rw [hname]
              simp only [List.head?_cons, ne_eq, Option.some.injEq]
              exact hc
          · rw [mapLookup, if_neg hkey] at hk2
            exact (hgood k p).1 hk2

/-- C9, amended: after every successful Load the routing discipline
holds — a record with the wildcard marker is stored only in the wildcard
index (under its suffix) and a record without it only in the exact index
(under its name) — but the two key spaces need not be disjoint, since an
exact record whose name starts with the separator can share its key with
a wildcard suffix. -/
theorem load_records_routed_by_marker (s : Sdns) (cfg : SdnsConfig)
    (h : (Load s cfg).2 = none) : routedByMarker (Load s cfg).1 := by
  rw [aux_Load_eq] at h ⊢
  have heq : loadLoop { s with exactDomains := [],
                                wildcardDomains := [],
                                domains := cfg.Domains } cfg.Domains 0 =
      ((loadLoop { s with exactDomains := [],
                          wildcardDomains := [],
                          domains := cfg.Domains } cfg.Domains 0).1,
       none) := by
    rw [← h]
  refine aux_loadLoop_routed cfg.Domains
    { s with exactDomains := [],
             wildcardDomains := [],
             domains := cfg.Domains } 0 _ (fun j => by rw [Nat.zero_add]) ?_ heq
  intro k p
  exact ⟨fun hk => by simp [mapLookup] at hk,
         fun hk => by simp [mapLookup] at hk⟩

theorem load_records_routed_by_marker_witness :
    routedByMarker (Load {} cfgScenario).1 :=
  load_records_routed_by_marker {} cfgScenario (by decide)

/-- Helper: resolution that fails with DomainNotFound or
UnsupportedQueryType leaves both the state and the message untouched. -/
theorem aux_answerQuery_err_unchanged (now : Nat) (s : Sdns) (m : Msg)
    (s1 : Sdns) (m1 : Msg) (e : SdnsErr)
    (h : answerQuery now s m = (s1, m1, some e))
    (he : e = SdnsErr.domainNotFound ∨ e = SdnsErr.unsupportedQueryType) :
    s1 = s ∧ m1 = m := by
  cases hQ : m.Question with
  | nil =>
    simp only [answerQuery, hQ] at h
    rcases he with he | he <;> subst he <;> simp_all
  | cons q qs =>
    simp only [answerQuery, hQ] at h
    by_cases hA : q.Qtype = typeA
    · rw [if_pos hA] at h
      simp only [answerA, hQ, List.headD_cons] at h
      rcases hfind : FindDomainFromName s (trimRightDots q.Name) with ⟨op, b⟩
      rw [hfind] at h
      cases op with
      | none =>
        cases b <;> rcases he with he | he <;> subst he <;> simp_all
      | some p =>
        cases b with
        | false => rcases he with he | he <;> subst he <;> simp_all
        | true =>
          simp only [] at h
          cases hg : s.domains.get? p with
          | some d =>
            rw [hg] at h
            rcases he with he | he <;> subst he <;> simp_all
          | none =>
            rw [hg] at h
            rcases he with he | he <;> subst he <;> simp_all
    · by_cases hN : q.Qtype = typeNS
      · rw [if_neg hA, if_pos hN] at h
        simp only [answerNS, hQ, List.headD_cons] at h
        rcases hfind : FindDomainFromName s (trimRightDots q.Name) with
          ⟨op, b⟩
        rw [hfind] at h
        cases op with
        | none =>
          cases b <;> rcases he with he | he <;> subst he <;> simp_all
        | some p =>
          cases b with
          | false => rcases he with he | he <;> subst he <;> simp_all
          | true =>
            simp only [] at h
            cases hg : s.domains.get? p with
            | some d =>
              rw [hg] at h
              rcases he with he | he <;> subst he <;> simp_all
            | none =>
              rw [hg] at h
              rcases he with he | he <;> subst he <;> simp_all
      · rw [if_neg hA, if_neg hN] at h
        rcases he with he | he <;> subst he <;> simp_all

/-- Helper: the upstream loop stops at the first success and adopts its
answer section verbatim. -/
theorem aux_recurseLoop_firstOk (ex : String → Msg → Except String Msg)
    (m inMsg : Msg) (srv : String) :
    ∀ (pre : List String) (post : List String),
      (∀ x ∈ pre, ∃ err, recurse ex m x = Except.error err) →
      recurse ex m srv = Except.ok inMsg →
      recurseLoop ex m (pre ++ srv :: post) =
        { m with Answer := inMsg.Answer } := by
  intro pre
  induction pre with
  | nil =>
    intro post _ hok
    rw [List.nil_append, recurseLoop, hok]
  | cons x xs ih =>
    intro post hfail hok
    obtain ⟨err, herr⟩ := hfail x (by simp)
    rw [List.cons_append, recurseLoop, herr]
    exact ih post (fun y hy => hfail y (by simp [hy])) hok

/-- Helper: when every upstream fails the loop returns the message as it
was. -/
theorem aux_recurseLoop_allFail (ex : String → Msg → Except String Msg)
    (m : Msg) :
    ∀ (servers : List String),
      (∀ x ∈ servers, ∃ err, recurse ex m x = Except.error err) →
      recurseLoop ex m servers = m := by
  intro servers
  induction servers with
  | nil => intro _; rfl
  | cons x xs ih =>
    intro hfail
    obtain ⟨err, herr⟩ := hfail x (by simp)
    rw [recurseLoop, herr]
    exact ih (fun y hy => hfail y (by simp [hy]))

/-- C4: when local resolution ends in DomainNotFound or
UnsupportedQueryType the reply's answer section is produced by the
upstream loop over the configured recursors in order: the message enters
the loop with an empty answer section, the first upstream that succeeds
(after any number of failing ones, which are skipped) supplies the answer
section verbatim, and when every upstream fails — or none are
configured — the reply is still the local message with its empty answer
section, not an error. -/
theorem handle_recursion_fallback (now : Nat) (s : Sdns)
    (ex : String → Msg → Except String Msg) (r : Msg)
    (s1 : Sdns) (m1 : Msg) (e : SdnsErr)
    (hop : r.Opcode = OpcodeQuery)
    (hq : answerQuery now s (SetReply r) = (s1, m1, some e))
    (he : e = SdnsErr.domainNotFound ∨ e = SdnsErr.unsupportedQueryType) :
    m1.Answer = [] ∧
    (handle now s ex r).2 = recurseLoop ex m1 s1.recursors ∧
    (∀ (pre : List String) (srv : String) (post : List String)
       (inMsg : Msg),
       s1.recursors = pre ++ srv :: post →
       (∀ x ∈ pre, ∃ err, recurse ex m1 x = Except.error err) →
       recurse ex m1 srv = Except.ok inMsg →
       (handle now s ex r).2.Answer = inMsg.Answer) ∧
    ((∀ x ∈ s1.recursors, ∃ err, recurse ex m1 x = Except.error err) →
       (handle now s ex r).2 = m1) := by
  have hunch := aux_answerQuery_err_unchanged now s (SetReply r) s1 m1 e
    hq he
  have hans : m1.Answer = [] := by rw [hunch.2]; rfl
  have hhandle : handle now s ex r = (s1, recurseLoop ex m1 s1.recursors) := by
    rcases he with he | he <;> subst he <;> simp [handle, hop, hq]
  refine ⟨hans, by rw [hhandle], ?_, ?_⟩
  · intro pre srv post inMsg hsplit hfail hok
    rw [hhandle]
    show (recurseLoop ex m1 s1.recursors).Answer = inMsg.Answer
    rw [hsplit, aux_recurseLoop_firstOk ex m1 inMsg srv pre post hfail hok]
  · intro hfail
    rw [hhandle]
    show recurseLoop ex m1 s1.recursors = m1
    exact aux_recurseLoop_allFail ex m1 s1.recursors hfail

theorem handle_recursion_fallback_witness :
    (handle 0 sRec exW rMiss).2.Answer =
      [NewRR "nope.com." "A" "9.9.9.9"] :=
  (handle_recursion_fallback 0 sRec exW rMiss sRec (SetReply rMiss)
      SdnsErr.domainNotFound rfl (by decide) (Or.inl rfl)).2.2.1
    ["bad"] "good" [] { Answer := [NewRR "nope.com." "A" "9.9.9.9"] }
    (by decide)
    (by
      intro x hx
      rw [List.mem_singleton] at hx
      subst hx
      exact ⟨"boom", rfl⟩)
    rfl

/-- C5: a query message with an empty question section is answered with
the NoQuestions error by answerQuery, which returns its inputs untouched
for every table state — so no table lookup happens — and the dispatcher
replies with the empty local message without consulting any upstream (the
result does not depend on the exchange oracle). -/
theorem handle_noQuestions_fastFail (now : Nat) (s : Sdns)
    (ex : String → Msg → Except String Msg) (r : Msg)
    (hop : r.Opcode = OpcodeQuery) (hq : r.Question = []) :
    answerQuery now s (SetReply r) =
      (s, SetReply r, some SdnsErr.noQuestions) ∧
    (SetReply r).Answer = [] ∧
    handle now s ex r = (s, SetReply r) := by
  have hQ : (SetReply r).Question = [] := by simp [SetReply, hq]
  have h1 : answerQuery now s (SetReply r) =
      (s, SetReply r, some SdnsErr.noQuestions) := by
    simp [answerQuery, hQ]
  refine ⟨h1, rfl, ?_⟩
  simp [handle, hop, h1]

theorem handle_noQuestions_fastFail_witness :
    answerQuery 0 sRec (SetReply rEmpty) =
      (sRec, SetReply rEmpty, some SdnsErr.noQuestions) ∧
    (SetReply rEmpty).Answer = [] ∧
    handle 0 sRec exW rEmpty = (sRec, SetReply rEmpty) :=
  handle_noQuestions_fastFail 0 sRec exW rEmpty rfl rfl

end SdnsLib
